import Mathlib

/-!
Shallow embedding of the valentine_site session/authorization scheme and
date-media index pipeline, together with proofs of the specification
claims about them.

Conventions used throughout:

* JavaScript strings are modelled as Lean `String` (a wrapper around
  `List Char`); the character-level JS primitives (`split`, `trim`,
  `parseInt`, `encodeURIComponent`, …) are modelled by executable Lean
  functions defined below.
* `Date.now()/1000` (epoch seconds) is passed explicitly as a `now : Nat`
  parameter.
* The HMAC-SHA256 function from `crypto` is an external primitive; it is
  modelled as an explicit function parameter `hmac : String → String →
  String` (secret, payload ↦ hex digest).  Where a proof needs the fact
  that a hex digest cannot contain the `|` delimiter, that fact is an
  explicit hypothesis.
* Environment variables are modelled as `Option String` fields (absent =
  `undefined`).
* JS numbers are modelled as exact `Nat`/`Int`.  Every quantity the code
  computes with (epoch seconds, list lengths, byte values) stays far
  below `2^53`, where JS float arithmetic is exact.
-/

namespace ValentineSite

/-! ## JS string primitives -/

/-- Model of JS `String.prototype.split` with a single-character separator,
at the level of character lists.  `"".split(sep)` is `[""]`, as in JS. -/
def jsSplitList (sep : Char) : List Char → List (List Char)
  | [] => [[]]
  | c :: rest =>
    match jsSplitList sep rest with
    | [] => [[]]
    | h :: t => if c = sep then [] :: h :: t else (c :: h) :: t

/-- Model of JS `str.split(sep)` for a one-character separator. -/
def jsSplit (sep : Char) (s : String) : List String :=
  (jsSplitList sep s.data).map String.mk

/-- The whitespace characters skipped by JS `trim` / `parseInt`
(ASCII fragment; the source never feeds non-ASCII whitespace in). -/
def jsWhitespace (c : Char) : Bool :=
  c = ' ' || c = '\t' || c = '\n' || c = '\r' || c = '\x0b' || c = '\x0c'

/-- Model of JS `String.prototype.trim`. -/
def jsTrim (s : String) : String :=
  String.mk (((s.data.dropWhile jsWhitespace).reverse.dropWhile jsWhitespace).reverse)

/-- Model of JS `Array.prototype.join(sep)`. -/
def jsJoin (sep : String) : List String → String
  | [] => ""
  | [s] => s
  | s :: rest => s ++ sep ++ jsJoin sep rest

/-- Decimal digit in the sense of JS `parseInt(·, 10)`. -/
def isDecDigit (c : Char) : Bool :=
  48 ≤ c.toNat && c.toNat ≤ 57

/-- Numeric value of a list of decimal digit characters (most significant
first), as accumulated by a base-10 parse. -/
def decValue (cs : List Char) : Nat :=
  cs.foldl (fun a c => 10 * a + (c.toNat - 48)) 0

/-- Parse a maximal leading run of decimal digits; `none` when there is no
leading digit (JS `NaN`). -/
def parseDecDigits (cs : List Char) : Option Nat :=
  let ds := cs.takeWhile isDecDigit
  if ds.isEmpty then none else some (decValue ds)

/-- Model of JS `parseInt(s, 10)`: skip leading whitespace, take an
optional sign, then a maximal run of decimal digits; `none` models `NaN`. -/
def jsParseInt (s : String) : Option Int :=
  match s.data.dropWhile jsWhitespace with
  | '-' :: rest => (parseDecDigits rest).map (fun v => -(v : Int))
  | '+' :: rest => (parseDecDigits rest).map (fun v => (v : Int))
  | cs => (parseDecDigits cs).map (fun v => (v : Int))

/-! ## Basic lemmas about the JS string primitives -/

theorem jsSplitList_ne_nil (sep : Char) (l : List Char) : jsSplitList sep l ≠ [] := by
  cases l with
  | nil => simp [jsSplitList]
  | cons c rest =>
    simp only [jsSplitList]
    rcases h : jsSplitList sep rest with _ | ⟨h', t⟩ <;> simp
    split <;> simp

theorem jsSplitList_of_not_mem {sep : Char} {l : List Char} (h : sep ∉ l) :
    jsSplitList sep l = [l] := by
  induction l with
  | nil => rfl
  | cons c rest ih =>
    have hc : c ≠ sep := fun hc => h (hc ▸ List.mem_cons_self c rest)
    have hr : sep ∉ rest := fun hr => h (List.mem_cons_of_mem _ hr)
    simp only [jsSplitList, ih hr]
    simp [hc]

theorem jsSplitList_append_sep {sep : Char} {a : List Char} (rest : List Char)
    (h : sep ∉ a) :
    jsSplitList sep (a ++ sep :: rest) = a :: jsSplitList sep rest := by
  induction a with
  | nil =>
    simp only [List.nil_append, jsSplitList]
    rcases hr : jsSplitList sep rest with _ | ⟨h', t⟩
    · exact absurd hr (jsSplitList_ne_nil sep rest)
    · simp
  | cons c a' ih =>
    have hc : c ≠ sep := fun hc => h (hc ▸ List.mem_cons_self c a')
    have ha : sep ∉ a' := fun hr => h (List.mem_cons_of_mem _ hr)
    rw [List.cons_append]
    simp only [jsSplitList]
    rw [ih ha]
    simp [hc]

theorem jsSplitList_length (sep : Char) (l : List Char) :
    (jsSplitList sep l).length = l.count sep + 1 := by
  induction l with
  | nil => simp [jsSplitList]
  | cons c rest ih =>
    simp only [jsSplitList]
    rcases h : jsSplitList sep rest with _ | ⟨h', t⟩
    · exact absurd h (jsSplitList_ne_nil sep rest)
    · rw [h] at ih
      by_cases hc : c = sep
      · subst hc
        simp_all [List.count_cons]
      · simp_all [List.count_cons, hc]

/-! ## Decimal rendering round-trip

The source renders the expiry as `${exp}` (decimal).  Lean's `Nat.repr`
is the same decimal rendering; we prove `jsParseInt` recovers the value. -/

theorem decValue_append_singleton (l : List Char) (c : Char) :
    decValue (l ++ [c]) = 10 * decValue l + (c.toNat - 48) := by
  simp [decValue, List.foldl_append]

theorem digitChar_isDecDigit {d : Nat} (h : d < 10) :
    isDecDigit (Nat.digitChar d) = true := by
  interval_cases d <;> decide

theorem digitChar_val {d : Nat} (h : d < 10) :
    (Nat.digitChar d).toNat - 48 = d := by
  interval_cases d <;> decide

theorem toDigitsCore_spec (fuel : Nat) :
    ∀ n acc, 0 < fuel → n < 10 ^ fuel →
      ∃ ds, Nat.toDigitsCore 10 fuel n acc = ds ++ acc ∧ ds ≠ [] ∧
        (∀ c ∈ ds, isDecDigit c = true) ∧ decValue ds = n := by
  induction fuel with
  | zero => intro n acc hf h; omega
  | succ fuel ih =>
    intro n acc _ h
    simp only [Nat.toDigitsCore]
    by_cases h0 : n / 10 = 0
    · have hn : n < 10 := by omega
      refine ⟨[Nat.digitChar (n % 10)], by simp [h0], by simp, ?_, ?_⟩
      · intro c hc
        rw [List.mem_singleton] at hc
        subst hc
        exact digitChar_isDecDigit (Nat.mod_lt _ (by omega))
      · have hmod : n % 10 = n := Nat.mod_eq_of_lt hn
        simp [decValue, hmod, digitChar_val hn]
    · simp only [h0, if_false]
      have hlt : n / 10 < 10 ^ fuel := by
        have := Nat.pow_succ 10 fuel
        omega
      have hf : 0 < fuel := by
        rcases Nat.eq_zero_or_pos fuel with hf | hf
        · subst hf; norm_num at h; omega
        · exact hf
      obtain ⟨ds, heq, hne, hdig, hval⟩ := ih (n / 10) (Nat.digitChar (n % 10) :: acc) hf hlt
      refine ⟨ds ++ [Nat.digitChar (n % 10)], by simp [heq], by simp, ?_, ?_⟩
      · intro c hc
        rcases List.mem_append.mp hc with hc | hc
        · exact hdig c hc
        · rw [List.mem_singleton] at hc
          subst hc
          exact digitChar_isDecDigit (Nat.mod_lt _ (by omega))
      · rw [decValue_append_singleton, hval,
          digitChar_val (Nat.mod_lt n (show 0 < 10 by omega))]
        omega

theorem natRepr_digits (n : Nat) :
    (Nat.repr n).data ≠ [] ∧ (∀ c ∈ (Nat.repr n).data, isDecDigit c = true) ∧
      decValue (Nat.repr n).data = n := by
  have hbound : n < 10 ^ (n + 1) := by
    calc n < 2 ^ n := Nat.lt_two_pow n
    _ ≤ 10 ^ n := Nat.pow_le_pow_left (by omega) n
    _ < 10 ^ (n + 1) := Nat.pow_lt_pow_succ (by omega)
  obtain ⟨ds, heq, hne, hdig, hval⟩ := toDigitsCore_spec (n + 1) n [] (Nat.succ_pos n) hbound
  have : (Nat.repr n).data = ds := by
    simp [Nat.repr, Nat.toDigits, List.asString, heq]
  rw [this]
  exact ⟨hne, hdig, hval⟩

theorem isDecDigit_facts {c : Char} (h : isDecDigit c = true) :
    jsWhitespace c = false ∧ c ≠ '-' ∧ c ≠ '+' ∧ c ≠ '|' ∧ c ≠ '/' := by
  have hc : 48 ≤ c.toNat ∧ c.toNat ≤ 57 := by
    simpa [isDecDigit] using h
  refine ⟨?_, ?_, ?_, ?_, ?_⟩
  · simp only [jsWhitespace]
    by_contra hw
    simp only [Bool.not_eq_false, Bool.or_eq_true, decide_eq_true_eq] at hw
    rcases hw with ((((hw | hw) | hw) | hw) | hw) | hw <;>
      (subst hw; revert hc; decide)
  all_goals
    intro he; subst he; revert hc; decide

theorem takeWhile_all_eq {p : Char → Bool} {l : List Char}
    (h : ∀ c ∈ l, p c = true) : l.takeWhile p = l := by
  induction l with
  | nil => rfl
  | cons c rest ih =>
    simp [List.takeWhile_cons, h c (List.mem_cons_self c rest),
      ih fun x hx => h x (List.mem_cons_of_mem _ hx)]

theorem jsParseInt_natRepr (n : Nat) : jsParseInt (Nat.repr n) = some (n : Int) := by
  obtain ⟨hne, hdig, hval⟩ := natRepr_digits n
  rcases hd : (Nat.repr n).data with _ | ⟨c, rest⟩
  · exact absurd hd hne
  · have hc : isDecDigit c = true := hdig c (hd ▸ List.mem_cons_self c rest)
    obtain ⟨hw, hminus, hplus, _, _⟩ := isDecDigit_facts hc
    have hdrop : (Nat.repr n).data.dropWhile jsWhitespace = c :: rest := by
      rw [hd, List.dropWhile_cons, hw]
      simp
    have htake : (c :: rest).takeWhile isDecDigit = c :: rest :=
      takeWhile_all_eq (fun x hx => hdig x (hd ▸ hx))
    simp only [jsParseInt, hdrop]
    split
    · next rest' heq =>
      exact absurd (List.head_eq_of_cons_eq heq) hminus
    · next rest' heq =>
      exact absurd (List.head_eq_of_cons_eq heq) hplus
    · have hv : decValue (c :: rest) = n := by rw [← hd]; exact hval
      simp [parseDecDigits, htake, hv]

/-! ## Token codec (src/api/lib/auth.ts) -/

/-- `type Role = "viewer" | "admin"`. -/
inductive Role where
  | viewer
  | admin
deriving DecidableEq, Repr

/-- Rendering of a `Role` as the string it is in the source. -/
def roleStr : Role → String
  | .viewer => "viewer"
  | .admin => "admin"

/-- `interface SessionPayload` from src/api/lib/auth.ts: the `exp` field is
an `Int` because `parseInt` can produce negative values. -/
structure SessionPayload where
  role : Role
  exp : Int
deriving DecidableEq, Repr

/-- `sign(payload)` from src/api/lib/auth.ts: HMAC-SHA256 hex digest of the
payload under `AUTH_SECRET`, or `null` when the secret is not configured.
The digest function itself is the external `crypto` primitive `hmac`. -/
def sign (hmac : String → String → String) (secret : Option String)
    (payload : String) : Option String :=
  match secret with
  | none => none
  | some s => some (hmac s payload)

/-- `safeEqual(a, b)` from src/api/lib/auth.ts: length check then
`timingSafeEqual`, which on equal-length UTF-8 buffers is string
equality.  JS `.length` counts UTF-16 units; it is modelled as the
character count, which coincides on the ASCII role/expiry/hex-digest
strings the codec compares. -/
def safeEqual (a b : String) : Bool :=
  a.length == b.length && a == b

/-- `createSessionToken(role, maxAgeSeconds)`: `exp = now + maxAge`, payload
`role|exp`, token `role|exp|sig`.  The source `throw`s when no secret is
configured; that is modelled by `none`. -/
def createSessionToken (hmac : String → String → String) (secret : Option String)
    (now : Nat) (role : Role) (maxAgeSeconds : Nat) : Option String :=
  let exp := now + maxAgeSeconds
  let payload := roleStr role ++ "|" ++ Nat.repr exp
  match sign hmac secret payload with
  | none => none
  | some sig => some (payload ++ "|" ++ sig)

/-- `verifySessionToken(token)` from src/api/lib/auth.ts. -/
def verifySessionToken (hmac : String → String → String) (secret : Option String)
    (now : Nat) (token : String) : Option SessionPayload :=
  match jsSplit '|' token with
  | [role, expStr, sig] =>
    if role ≠ "viewer" ∧ role ≠ "admin" then none
    else
      match jsParseInt expStr with
      | none => none
      | some exp =>
        match sign hmac secret (role ++ "|" ++ expStr) with
        | none => none
        | some expectedSig =>
          if ¬ safeEqual sig expectedSig then none
          else if (now : Int) > exp then none
          else some ⟨if role = "admin" then .admin else .viewer, exp⟩
  | _ => none

theorem safeEqual_eq_true_iff (a b : String) : safeEqual a b = true ↔ a = b := by
  constructor
  · intro h
    have := (Bool.and_eq_true _ _).mp h
    exact eq_of_beq this.2
  · intro h
    subst h
    simp [safeEqual]

theorem pipe_not_mem_roleStr (role : Role) : '|' ∉ (roleStr role).data := by
  cases role <;> decide

theorem pipe_not_mem_natRepr (n : Nat) : '|' ∉ (Nat.repr n).data := by
  intro hmem
  obtain ⟨-, hdig, -⟩ := natRepr_digits n
  have := hdig '|' hmem
  simp [isDecDigit] at this

/-- The token built by `createSessionToken` splits back into its three
fields, provided the signature contains no delimiter character. -/
theorem jsSplit_token (role : Role) (exp : Nat) (sig : String)
    (hsig : '|' ∉ sig.data) :
    jsSplit '|' (roleStr role ++ "|" ++ Nat.repr exp ++ "|" ++ sig) =
      [roleStr role, Nat.repr exp, sig] := by
  have hdata : (roleStr role ++ "|" ++ Nat.repr exp ++ "|" ++ sig).data =
      (roleStr role).data ++ '|' :: ((Nat.repr exp).data ++ '|' :: sig.data) := by
    simp [String.data_append]
  rw [jsSplit, hdata,
    jsSplitList_append_sep _ (pipe_not_mem_roleStr role),
    jsSplitList_append_sep _ (pipe_not_mem_natRepr exp),
    jsSplitList_of_not_mem hsig]
  rfl

/-- C1: round-trip of the token codec.  For every role and non-negative
`maxAgeSeconds`, with a signing secret configured, verifying the token
created at the same clock instant succeeds and returns the same role
(and the encoded expiry `now + maxAge`).  The hypothesis `hsig` records
the fact that an HMAC hex digest never contains the `|` delimiter. -/
theorem token_roundtrip (hmac : String → String → String) (secret : String)
    (now maxAgeSeconds : Nat) (role : Role)
    (hsig : '|' ∉ (hmac secret (roleStr role ++ "|" ++ Nat.repr (now + maxAgeSeconds))).data) :
    createSessionToken hmac (some secret) now role maxAgeSeconds =
      some (roleStr role ++ "|" ++ Nat.repr (now + maxAgeSeconds) ++ "|" ++
        hmac secret (roleStr role ++ "|" ++ Nat.repr (now + maxAgeSeconds))) ∧
    verifySessionToken hmac (some secret) now
        (roleStr role ++ "|" ++ Nat.repr (now + maxAgeSeconds) ++ "|" ++
          hmac secret (roleStr role ++ "|" ++ Nat.repr (now + maxAgeSeconds))) =
      some ⟨role, ((now + maxAgeSeconds : Nat) : Int)⟩ := by
  constructor
  · simp [createSessionToken, sign]
  · rw [verifySessionToken, jsSplit_token _ _ _ hsig]
    have hrole : ¬ (roleStr role ≠ "viewer" ∧ roleStr role ≠ "admin") := by
      cases role <;> simp [roleStr]
    simp only [hrole, if_false, jsParseInt_natRepr]
    simp only [sign]
    have hsafe : safeEqual (hmac secret (roleStr role ++ "|" ++ Nat.repr (now + maxAgeSeconds)))
        (hmac secret (roleStr role ++ "|" ++ Nat.repr (now + maxAgeSeconds))) = true :=
      (safeEqual_eq_true_iff _ _).mpr rfl
    simp only [hsafe]
    have hexp : ¬ ((now : Int) > ((now + maxAgeSeconds : Nat) : Int)) := by
      push_cast
      omega
    simp only [not_true, if_false, hexp]
    cases role <;> simp [roleStr]

/-- Witness for C1 at a concrete instance. -/
theorem token_roundtrip_witness :
    createSessionToken (fun _ _ => "cafe") (some "hunter2") 1000 .viewer 60 =
      some ("viewer|1060|cafe") ∧
    verifySessionToken (fun _ _ => "cafe") (some "hunter2") 1000 "viewer|1060|cafe" =
      some ⟨.viewer, (1060 : Int)⟩ := by
  have h := token_roundtrip (fun _ _ => "cafe") "hunter2" 1000 60 .viewer (by decide)
  exact h

theorem safeEqual_eq_false_iff (a b : String) : safeEqual a b = false ↔ a ≠ b := by
  rw [← Bool.not_eq_true, not_iff_not]
  exact safeEqual_eq_true_iff a b

/-- C2: `verifySessionToken` returns `null` exactly when the token does
not split on the delimiter into three fields, or the role field is
unknown, or the expiry field does not parse as an integer, or the
signature does not match the recomputed HMAC, or the current time
exceeds the expiry; otherwise it returns the role and expiry.  In
particular an expired token fails even with a valid signature. -/
theorem verify_characterization (hmac : String → String → String) (s : String)
    (now : Nat) (token : String) :
    (verifySessionToken hmac (some s) now token = none ↔
      (jsSplit '|' token).length ≠ 3 ∨
      ∃ r e g, jsSplit '|' token = [r, e, g] ∧
        ((r ≠ "viewer" ∧ r ≠ "admin") ∨
         jsParseInt e = none ∨
         g ≠ hmac s (r ++ "|" ++ e) ∨
         ∃ v, jsParseInt e = some v ∧ (now : Int) > v)) ∧
    (∀ r e g v, jsSplit '|' token = [r, e, g] →
      (r = "viewer" ∨ r = "admin") →
      jsParseInt e = some v →
      g = hmac s (r ++ "|" ++ e) →
      (now : Int) ≤ v →
      verifySessionToken hmac (some s) now token =
        some ⟨if r = "admin" then Role.admin else Role.viewer, v⟩) := by
  constructor
  · rcases hs : jsSplit '|' token with _ | ⟨r, _ | ⟨e, _ | ⟨g, _ | ⟨x, rest⟩⟩⟩⟩
    · simp [verifySessionToken, hs]
    · simp [verifySessionToken, hs]
    · simp [verifySessionToken, hs]
    · -- exactly three fields
      have collapse : ∀ (C : String → String → String → Prop),
          (∃ r' e' g', ([r, e, g] : List String) = [r', e', g'] ∧ C r' e' g') ↔ C r e g := by
        intro C
        constructor
        · rintro ⟨r', e', g', heq, hc⟩
          obtain ⟨rfl, rfl, rfl⟩ : r = r' ∧ e = e' ∧ g = g' := by simpa using heq
          exact hc
        · intro hc
          exact ⟨r, e, g, rfl, hc⟩
      simp only [verifySessionToken, hs, collapse]
      by_cases hrole : r ≠ "viewer" ∧ r ≠ "admin"
      · simp [hrole]
      · rw [if_neg hrole]
        rcases hpe : jsParseInt e with _ | v
        · simp [hpe]
        · simp only [sign]
          by_cases hg : g = hmac s (r ++ "|" ++ e)
          · have hsafe : safeEqual g (hmac s (r ++ "|" ++ e)) = true :=
              (safeEqual_eq_true_iff _ _).mpr hg
            by_cases ht : (now : Int) > v
            · simp [hsafe, ht, hg, hrole, hpe, safeEqual_eq_true_iff]
            · simp [hsafe, ht, hg, hrole, hpe, safeEqual_eq_true_iff]
          · have hsafe : safeEqual g (hmac s (r ++ "|" ++ e)) = false :=
              (safeEqual_eq_false_iff _ _).mpr hg
            simp [hsafe, hg, hpe]
    · simp [verifySessionToken, hs]
  · intro r e g v hsplit hrole hpe hg ht
    have hrole' : ¬ (r ≠ "viewer" ∧ r ≠ "admin") := by
      rcases hrole with h | h <;> simp [h]
    have hsafe : safeEqual g (hmac s (r ++ "|" ++ e)) = true :=
      (safeEqual_eq_true_iff _ _).mpr hg
    simp only [verifySessionToken, hsplit, hrole', if_false, hpe, sign, hsafe]
    simp [ht, not_lt.mpr ht]

/-- Witness for C2 at concrete inputs: a well-formed unexpired token
verifies to its role/expiry, and the expiry disjunct rejects an expired
token with a valid signature. -/
theorem verify_characterization_witness :
    verifySessionToken (fun _ _ => "cafe") (some "k") 50 "admin|99|cafe" =
      some ⟨Role.admin, (99 : Int)⟩ ∧
    verifySessionToken (fun _ _ => "cafe") (some "k") 100 "admin|99|cafe" = none := by
  constructor
  · exact (verify_characterization (fun _ _ => "cafe") "k" 50 "admin|99|cafe").2
      "admin" "99" "cafe" 99 (by decide) (Or.inr rfl) (by decide) rfl (by decide)
  · exact (verify_characterization (fun _ _ => "cafe") "k" 100 "admin|99|cafe").1.mpr
      (Or.inr ⟨"admin", "99", "cafe", by decide, Or.inr (Or.inr (Or.inr ⟨99, by decide, by decide⟩))⟩)

/-! ## Cookie session resolver and access guards (src/api/lib/auth.ts) -/

/-- The slice of a Vercel request that the guards consult:
`req.headers.cookie || ""` and `req.headers["admin-pin"]`. -/
structure ApiRequest where
  cookieHeader : String
  adminPinHeader : Option String

/-- The environment variables the guards consult. -/
structure AuthEnv where
  authSecret : Option String
  adminPin : Option String

/-- `parseCookies(req)` from src/api/lib/auth.ts builds a JS object by
assignment, so a later `name=value` pair overwrites an earlier one; the
final object is modelled by this fold (last assignment wins). -/
def parseCookies (header : String) : List (String × String) :=
  (jsSplit ';' header).foldl
    (fun cookies pair =>
      match jsSplit '=' (jsTrim pair) with
      | [] => cookies
      | name :: rest =>
        if name = "" then cookies
        else cookies ++ [(jsTrim name, jsTrim (jsJoin "=" rest))])
    []

/-- Lookup in the cookie object: the value of the last assignment. -/
def getCookie (header name : String) : Option String :=
  (parseCookies header).foldl
    (fun acc p => if p.1 = name then some p.2 else acc) none

/-- `getAdminSessionFromRequest(req)` from src/api/lib/auth.ts: only the
`admin_session` cookie, verified to role admin, yields a session. -/
def getAdminSessionFromRequest (hmac : String → String → String) (env : AuthEnv)
    (now : Nat) (req : ApiRequest) : Option SessionPayload :=
  match getCookie req.cookieHeader "admin_session" with
  | none => none
  | some t =>
    if t = "" then none
    else
      match verifySessionToken hmac env.authSecret now t with
      | some session => if session.role = .admin then some session else none
      | none => none

/-- Result of a guard: proceed, or the 401 response the guard sends
(status, JSON error message, Cache-Control directive). -/
inductive GuardResult where
  | allow
  | deny (status : Nat) (errorMsg : String) (cacheControl : String)
deriving DecidableEq, Repr

/-- The PIN-header fallback test in `requireAdmin`:
`pin && pin === process.env.ADMIN_PIN`. -/
def pinHeaderOk (env : AuthEnv) (req : ApiRequest) : Bool :=
  match req.adminPinHeader with
  | none => false
  | some pin => pin ≠ "" && env.adminPin == some pin

/-- `requireAdmin(req, res)` from src/api/lib/auth.ts: admin cookie
session, else PIN header, else 401 `{"error":"Unauthorized"}` with
`Cache-Control: no-store`. -/
def requireAdmin (hmac : String → String → String) (env : AuthEnv) (now : Nat)
    (req : ApiRequest) : GuardResult :=
  match getAdminSessionFromRequest hmac env now req with
  | some _ => .allow
  | none =>
    if pinHeaderOk env req then .allow
    else .deny 401 "Unauthorized" "no-store"

theorem verify_empty_eq_none (hmac : String → String → String)
    (secret : Option String) (now : Nat) :
    verifySessionToken hmac secret now "" = none := rfl

/-- C3: `requireAdmin` (a) allows every request whose `admin_session`
cookie verifies to an admin session, even with no `admin-pin` header;
(b) allows every request whose `admin-pin` header equals the configured
(non-empty) `ADMIN_PIN`, even with no cookie at all; and (c) for a
request with neither an `admin_session` cookie nor an `admin-pin`
header, denies with a 401 JSON error marked `no-store`. -/
theorem requireAdmin_spec (hmac : String → String → String) (env : AuthEnv) (now : Nat) :
    (∀ req t session, req.adminPinHeader = none →
      getCookie req.cookieHeader "admin_session" = some t →
      verifySessionToken hmac env.authSecret now t = some session →
      session.role = .admin →
      requireAdmin hmac env now req = .allow) ∧
    (∀ req pin, req.cookieHeader = "" → env.adminPin = some pin → pin ≠ "" →
      req.adminPinHeader = some pin →
      requireAdmin hmac env now req = .allow) ∧
    (∀ req, getCookie req.cookieHeader "admin_session" = none →
      req.adminPinHeader = none →
      requireAdmin hmac env now req = .deny 401 "Unauthorized" "no-store") := by
  refine ⟨?_, ?_, ?_⟩
  · intro req t session _ hcookie hverify hrole
    have ht : t ≠ "" := by
      intro h
      rw [h, verify_empty_eq_none] at hverify
      exact Option.noConfusion hverify
    simp [requireAdmin, getAdminSessionFromRequest, hcookie, ht, hverify, hrole]
  · intro req pin hheader hpin hne hreqpin
    have hcookie : getCookie req.cookieHeader "admin_session" = none := by
      rw [hheader]; rfl
    simp [requireAdmin, getAdminSessionFromRequest, hcookie, pinHeaderOk, hreqpin, hne, hpin]
  · intro req hcookie hnopin
    simp [requireAdmin, getAdminSessionFromRequest, hcookie, pinHeaderOk, hnopin]

/-- Witness for C3: each of the three conclusions at concrete inputs. -/
theorem requireAdmin_spec_witness :
    requireAdmin (fun _ _ => "cafe") ⟨some "k", some "1234"⟩ 5
        ⟨"admin_session=admin|9|cafe", none⟩ = .allow ∧
    requireAdmin (fun _ _ => "cafe") ⟨some "k", some "1234"⟩ 5
        ⟨"", some "1234"⟩ = .allow ∧
    requireAdmin (fun _ _ => "cafe") ⟨some "k", some "1234"⟩ 5
        ⟨"", none⟩ = .deny 401 "Unauthorized" "no-store" := by
  refine ⟨?_, ?_, ?_⟩
  · exact (requireAdmin_spec (fun _ _ => "cafe") ⟨some "k", some "1234"⟩ 5).1
      ⟨"admin_session=admin|9|cafe", none⟩ "admin|9|cafe" ⟨.admin, 9⟩
      rfl (by decide) (by decide) rfl
  · exact (requireAdmin_spec (fun _ _ => "cafe") ⟨some "k", some "1234"⟩ 5).2.1
      ⟨"", some "1234"⟩ "1234" rfl rfl (by decide) rfl
  · exact (requireAdmin_spec (fun _ _ => "cafe") ⟨some "k", some "1234"⟩ 5).2.2
      ⟨"", none⟩ (by decide) rfl

/-- C10: when `ADMIN_PIN` is unset or empty, the PIN-header fallback can
never grant access: any request without a valid admin-session cookie is
denied 401, whatever the `admin-pin` header holds. -/
theorem pin_fallback_unreachable (hmac : String → String → String) (env : AuthEnv)
    (now : Nat) (req : ApiRequest)
    (hpin : env.adminPin = none ∨ env.adminPin = some "")
    (hsess : getAdminSessionFromRequest hmac env now req = none) :
    requireAdmin hmac env now req = .deny 401 "Unauthorized" "no-store" := by
  have hok : pinHeaderOk env req = false := by
    rcases hp : req.adminPinHeader with _ | p
    · simp [pinHeaderOk, hp]
    · rcases hpin with h | h
      · simp [pinHeaderOk, hp, h]
      · by_cases hpe : p = ""
        · simp [pinHeaderOk, hp, h, hpe]
        · simp only [pinHeaderOk, hp, h, beq_eq_false_iff_ne]
          simp [hpe]
          exact fun hc => hpe hc.symm
  simp [requireAdmin, hsess, hok]

/-- Witness for C10: empty `ADMIN_PIN`, matching (empty-conflicting)
header, no cookie: denied. -/
theorem pin_fallback_unreachable_witness :
    requireAdmin (fun _ _ => "cafe") ⟨some "k", some ""⟩ 5 ⟨"", some "anything"⟩ =
      .deny 401 "Unauthorized" "no-store" :=
  pin_fallback_unreachable (fun _ _ => "cafe") ⟨some "k", some ""⟩ 5
    ⟨"", some "anything"⟩ (Or.inr rfl) rfl

/-! ## Canonical public URL construction

The builder and the admin photo browser construct the public URL by
`key.split("/").map(encodeURIComponent).join("/")`.  `encodeURIComponent`
is the external JS primitive: it keeps unreserved characters and
percent-escapes the UTF-8 bytes of every other character, uppercase hex. -/

/-- The characters `encodeURIComponent` leaves unescaped. -/
def isUnreservedURI (c : Char) : Bool :=
  c.isAlphanum || c = '-' || c = '_' || c = '.' || c = '!' || c = '~' ||
    c = '*' || c = Char.ofNat 39 || c = '(' || c = ')'

/-- UTF-8 encoding of one character as its list of byte values. -/
def utf8Bytes (c : Char) : List Nat :=
  if c.toNat < 0x80 then [c.toNat]
  else if c.toNat < 0x800 then [0xC0 + c.toNat / 64, 0x80 + c.toNat % 64]
  else if c.toNat < 0x10000 then
    [0xE0 + c.toNat / 4096, 0x80 + (c.toNat / 64) % 64, 0x80 + c.toNat % 64]
  else
    [0xF0 + c.toNat / 262144, 0x80 + (c.toNat / 4096) % 64,
      0x80 + (c.toNat / 64) % 64, 0x80 + c.toNat % 64]

/-- Uppercase hex digit. -/
def hexDigitChar (n : Nat) : Char :=
  if n < 10 then Char.ofNat (48 + n) else Char.ofNat (55 + n)

/-- A percent-escape `%XY` for one byte. -/
def percentByte (b : Nat) : List Char :=
  ['%', hexDigitChar (b / 16), hexDigitChar (b % 16)]

/-- Model of JS `encodeURIComponent`. -/
def encodeURIComponent (s : String) : String :=
  String.mk (s.data.flatMap fun c =>
    if isUnreservedURI c then [c] else (utf8Bytes c).flatMap percentByte)

/-- The URL-path construction shared by the index builder
(src/unnamed/part_004) and the admin photo browser:
`key.split("/").map(encodeURIComponent).join("/")`. -/
def encodePath (key : String) : String :=
  jsJoin "/" ((jsSplit '/' key).map encodeURIComponent)

theorem char_toNat_lt_valid (c : Char) : c.toNat < 1114112 := by
  rcases c.valid with h | ⟨h1, h2⟩
  · exact lt_trans h (by norm_num)
  · exact h2

theorem utf8Bytes_lt (c : Char) : ∀ b ∈ utf8Bytes c, b < 256 := by
  intro b hb
  have hv := char_toNat_lt_valid c
  unfold utf8Bytes at hb
  split at hb
  · simp at hb; omega
  · split at hb
    · simp at hb; omega
    · split at hb
      · simp at hb; omega
      · simp at hb; omega

theorem hexDigitChar_ne_slash : ∀ m, m < 16 → hexDigitChar m ≠ '/' := by decide

theorem slash_not_mem_encodeURIComponent (s : String) :
    '/' ∉ (encodeURIComponent s).data := by
  intro hmem
  rw [encodeURIComponent] at hmem
  obtain ⟨c, _, hc⟩ := List.mem_flatMap.mp hmem
  by_cases hu : isUnreservedURI c
  · rw [if_pos hu, List.mem_singleton] at hc
    subst hc
    exact absurd hu (by decide)
  · rw [if_neg hu] at hc
    obtain ⟨b, hbmem, hbc⟩ := List.mem_flatMap.mp hc
    have hb : b < 256 := utf8Bytes_lt c b hbmem
    simp only [percentByte, List.mem_cons, List.not_mem_nil, or_false] at hbc
    rcases hbc with h | h | h
    · exact absurd h (by decide)
    · exact absurd h.symm (hexDigitChar_ne_slash (b / 16) (by omega))
    · exact absurd h.symm (hexDigitChar_ne_slash (b % 16) (by omega))

theorem jsSplit_jsJoin_slash (l : List String) (hne : l ≠ [])
    (h : ∀ p ∈ l, '/' ∉ p.data) : jsSplit '/' (jsJoin "/" l) = l := by
  induction l with
  | nil => exact absurd rfl hne
  | cons s l' ih =>
    rcases l' with _ | ⟨s', l''⟩
    · rw [jsJoin, jsSplit, jsSplitList_of_not_mem (h s (List.mem_cons_self s []))]
      rfl
    · have hdata : (jsJoin "/" (s :: s' :: l'')).data =
          s.data ++ '/' :: (jsJoin "/" (s' :: l'')).data := by
        show (s ++ "/" ++ jsJoin "/" (s' :: l'')).data = _
        simp [String.data_append]
      rw [jsSplit, hdata, jsSplitList_append_sep _ (h s (List.mem_cons_self s _))]
      have := ih (List.cons_ne_nil s' l'') (fun p hp => h p (List.mem_cons_of_mem _ hp))
      rw [jsSplit] at this
      simp only [List.map_cons]
      rw [this]

/-- C8: the canonical URL path percent-encodes each path segment of the
key independently and rejoins with `/`: splitting the encoded path on
`/` recovers exactly the per-segment encodings, the number of literal
`/` characters is preserved (no separator is ever escaped to `%2F`),
and no encoded segment contains a `/`. -/
theorem encodePath_spec (key : String) :
    jsSplit '/' (encodePath key) = (jsSplit '/' key).map encodeURIComponent ∧
    (encodePath key).data.count '/' = key.data.count '/' ∧
    ∀ seg : String, '/' ∉ (encodeURIComponent seg).data := by
  have hsplit : jsSplit '/' (encodePath key) = (jsSplit '/' key).map encodeURIComponent := by
    rw [encodePath]
    refine jsSplit_jsJoin_slash _ ?_ ?_
    · intro hc
      have h1 : jsSplit '/' key = [] := List.map_eq_nil_iff.mp hc
      rw [jsSplit] at h1
      exact jsSplitList_ne_nil '/' key.data (List.map_eq_nil_iff.mp h1)
    · intro p hp
      obtain ⟨q, _, rfl⟩ := List.mem_map.mp hp
      exact slash_not_mem_encodeURIComponent q
  refine ⟨hsplit, ?_, fun seg => slash_not_mem_encodeURIComponent seg⟩
  have hlen : (jsSplitList '/' (encodePath key).data).length =
      (jsSplitList '/' key.data).length := by
    have h1 : (jsSplit '/' (encodePath key)).length =
        ((jsSplit '/' key).map encodeURIComponent).length := congrArg List.length hsplit
    simpa [jsSplit] using h1
  have c1 := jsSplitList_length '/' (encodePath key).data
  have c2 := jsSplitList_length '/' key.data
  omega

/-! ## Date index builder (src/unnamed/part_004, build-date-media-index)

The S3 listing is a pure input; the per-object capture-date extraction
(`getImageExifDate` / `getVideoCreationDateViaFfprobe`) performs network
and subprocess work, so it enters the model as two oracle functions
`imgDate`/`vidDate : String → Option String` giving each key's extraction
result (`none` = extraction failed / no tag).  The extraction runs in
batches of ten (`Promise.all` per batch, batches sequential); `Promise.all`
preserves order, so the sequence of index insertions equals the flat
listing order modelled by the fold below. -/

/-- `WEB_IMAGE_EXTS` from the builder. -/
def WEB_IMAGE_EXTS : List String := [".jpg", ".jpeg", ".png", ".webp", ".gif", ".svg"]

/-- `WEB_VIDEO_EXTS` from the builder. -/
def WEB_VIDEO_EXTS : List String := [".mp4", ".webm"]

/-- Helper for `getExt`: the suffix of the key starting at the last `.`,
or `none` when the key has no dot (`lastIndexOf` returned `-1`). -/
def extFromLastDot : List Char → Option (List Char)
  | [] => none
  | c :: rest =>
    match extFromLastDot rest with
    | some e => some e
    | none => if c = '.' then some (c :: rest) else none

/-- `getExt(key)`: lowercased extension including the dot, else `""`. -/
def getExt (key : String) : String :=
  match extFromLastDot key.data with
  | some e => String.mk (e.map Char.toLower)
  | none => ""

/-- `isWebMedia(key)` from the builder. -/
def isWebMedia (key : String) : Bool :=
  WEB_IMAGE_EXTS.contains (getExt key) || WEB_VIDEO_EXTS.contains (getExt key)

/-- One listed object: its key, and `formatDate(LastModified)` when the
listing carried a last-modified timestamp (already rendered, since
`Date`/`formatDate` are external). -/
structure S3Object where
  key : String
  lastModifiedDate : Option String

/-- The per-object date computation of the builder batch body: images use
the EXIF oracle; videos use the ffprobe oracle with `LastModified` as the
last resort when the probe result is falsy (null or empty). -/
def resolveDate (imgDate vidDate : String → Option String) (o : S3Object) : Option String :=
  if WEB_IMAGE_EXTS.contains (getExt o.key) then imgDate o.key
  else if WEB_VIDEO_EXTS.contains (getExt o.key) then
    let d := vidDate o.key
    if (d = none ∨ d = some "") ∧ o.lastModifiedDate ≠ none then o.lastModifiedDate
    else d
  else none

/-- `if (!date) continue`: a falsy (null/empty) resolved date is skipped. -/
def effectiveDate (imgDate vidDate : String → Option String) (o : S3Object) : Option String :=
  match resolveDate imgDate vidDate o with
  | none => none
  | some d => if d = "" then none else some d

/-- Canonical public URL of an object key. -/
def urlOf (bucket region key : String) : String :=
  "https://" ++ bucket ++ ".s3." ++ region ++ ".amazonaws.com/" ++ encodePath key

/-- `if (!index[date]) index[date] = []; index[date].push(url)` on a JS
object whose keys are in insertion order. -/
def indexInsert (idx : List (String × List String)) (d url : String) :
    List (String × List String) :=
  if idx.any (fun p => p.1 == d) then
    idx.map (fun p => if p.1 == d then (p.1, p.2 ++ [url]) else p)
  else idx ++ [(d, [url])]

/-- The body of the result loop: skip undated objects, otherwise append
the object's URL to its date's list. -/
def buildStep (imgDate vidDate : String → Option String) (bucket region : String)
    (idx : List (String × List String)) (o : S3Object) : List (String × List String) :=
  match effectiveDate imgDate vidDate o with
  | none => idx
  | some d => indexInsert idx d (urlOf bucket region o.key)

/-- The whole builder: filter the listing to web-displayable media, then
insert every dated object's URL under its date. -/
def buildDateMediaIndex (imgDate vidDate : String → Option String) (bucket region : String)
    (listing : List S3Object) : List (String × List String) :=
  (listing.filter (fun o => isWebMedia o.key)).foldl
    (buildStep imgDate vidDate bucket region) []

theorem indexInsert_adds (idx : List (String × List String)) (d url : String) :
    ∃ urls, (d, urls) ∈ indexInsert idx d url ∧ url ∈ urls := by
  rw [indexInsert]
  by_cases h : idx.any (fun p => p.1 == d)
  · rw [if_pos h]
    obtain ⟨p, hp, hpd⟩ := List.any_eq_true.mp h
    have hpd' : p.1 = d := eq_of_beq hpd
    refine ⟨p.2 ++ [url], ?_, by simp⟩
    have : (if p.1 == d then (p.1, p.2 ++ [url]) else p) = (d, p.2 ++ [url]) := by
      rw [if_pos hpd, hpd']
    exact this ▸ List.mem_map_of_mem _ hp
  · rw [if_neg h]
    exact ⟨[url], by simp, by simp⟩

theorem indexInsert_mono (idx : List (String × List String)) (d url d0 : String)
    (urls0 : List String) (u0 : String) (hmem : (d0, urls0) ∈ idx) (hu : u0 ∈ urls0) :
    ∃ urls', (d0, urls') ∈ indexInsert idx d url ∧ u0 ∈ urls' := by
  rw [indexInsert]
  by_cases h : idx.any (fun p => p.1 == d)
  · rw [if_pos h]
    by_cases hd : d0 = d
    · refine ⟨urls0 ++ [url], ?_, by simp [hu]⟩
      have : (if (d0, urls0).1 == d then ((d0, urls0).1, (d0, urls0).2 ++ [url])
          else (d0, urls0)) = (d0, urls0 ++ [url]) := by
        simp [hd]
      exact this ▸ List.mem_map_of_mem _ hmem
    · refine ⟨urls0, ?_, hu⟩
      have : (if (d0, urls0).1 == d then ((d0, urls0).1, (d0, urls0).2 ++ [url])
          else (d0, urls0)) = (d0, urls0) := by
        simp [hd]
      exact this ▸ List.mem_map_of_mem _ hmem
  · rw [if_neg h]
    exact ⟨urls0, List.mem_append_left _ hmem, hu⟩

theorem indexInsert_from (idx : List (String × List String)) (d url d' : String)
    (urls' : List String) (hmem : (d', urls') ∈ indexInsert idx d url) :
    ∀ u ∈ urls', (∃ urls, (d', urls) ∈ idx ∧ u ∈ urls) ∨ (d' = d ∧ u = url) := by
  intro u hu
  rw [indexInsert] at hmem
  by_cases h : idx.any (fun p => p.1 == d)
  · rw [if_pos h] at hmem
    obtain ⟨p, hp, heq⟩ := List.mem_map.mp hmem
    by_cases hpd : p.1 == d
    · rw [if_pos hpd] at heq
      have h1 : p.1 = d' := congrArg Prod.fst heq
      have h2 : p.2 ++ [url] = urls' := congrArg Prod.snd heq
      rcases List.mem_append.mp (h2 ▸ hu) with hu' | hu'
      · exact Or.inl ⟨p.2, by rw [← h1]; exact hp, hu'⟩
      · have hd : d' = d := by rw [← h1]; exact eq_of_beq hpd
        exact Or.inr ⟨hd, (List.mem_singleton.mp hu')⟩
    · rw [if_neg hpd] at heq
      exact Or.inl ⟨urls', heq ▸ hp, hu⟩
  · rw [if_neg h] at hmem
    rcases List.mem_append.mp hmem with hm | hm
    · exact Or.inl ⟨urls', hm, hu⟩
    · have : d' = d ∧ urls' = [url] := by
        simpa using hm
      exact Or.inr ⟨this.1, by
        have := this.2 ▸ hu
        simpa using this⟩

theorem buildFold_mono (imgDate vidDate : String → Option String) (bucket region : String) :
    ∀ (l : List S3Object) (idx : List (String × List String)) (d0 : String)
      (urls0 : List String) (u0 : String), (d0, urls0) ∈ idx → u0 ∈ urls0 →
      ∃ urls', (d0, urls') ∈ l.foldl (buildStep imgDate vidDate bucket region) idx ∧
        u0 ∈ urls' := by
  intro l
  induction l with
  | nil => exact fun idx d0 urls0 u0 h hu => ⟨urls0, h, hu⟩
  | cons o rest ih =>
    intro idx d0 urls0 u0 h hu
    rw [List.foldl_cons]
    rcases he : effectiveDate imgDate vidDate o with _ | d
    · exact ih _ d0 urls0 u0 (by simpa [buildStep, he] using h) hu
    · obtain ⟨urls1, h1, hu1⟩ :=
        indexInsert_mono idx d (urlOf bucket region o.key) d0 urls0 u0 h hu
      exact ih _ d0 urls1 u0 (by simpa [buildStep, he] using h1) hu1

theorem buildFold_adds (imgDate vidDate : String → Option String) (bucket region : String) :
    ∀ (l : List S3Object) (idx : List (String × List String)) (o : S3Object) (d : String),
      o ∈ l → effectiveDate imgDate vidDate o = some d →
      ∃ urls, (d, urls) ∈ l.foldl (buildStep imgDate vidDate bucket region) idx ∧
        urlOf bucket region o.key ∈ urls := by
  intro l
  induction l with
  | nil => intro idx o d h; exact absurd h (List.not_mem_nil o)
  | cons o1 rest ih =>
    intro idx o d hmem hdate
    rw [List.foldl_cons]
    rcases List.mem_cons.mp hmem with rfl | hmem'
    · obtain ⟨urls, h1, hu1⟩ := indexInsert_adds idx d (urlOf bucket region o.key)
      exact buildFold_mono imgDate vidDate bucket region rest _ d urls _
        (by simpa [buildStep, hdate] using h1) hu1
    · exact ih _ o d hmem' hdate

theorem buildFold_from (imgDate vidDate : String → Option String) (bucket region : String) :
    ∀ (l : List S3Object) (idx : List (String × List String)) (d : String)
      (urls : List String),
      (d, urls) ∈ l.foldl (buildStep imgDate vidDate bucket region) idx →
      ∀ u ∈ urls, (∃ urls0, (d, urls0) ∈ idx ∧ u ∈ urls0) ∨
        ∃ o, o ∈ l ∧ effectiveDate imgDate vidDate o = some d ∧
          u = urlOf bucket region o.key := by
  intro l
  induction l with
  | nil => exact fun idx d urls h u hu => Or.inl ⟨urls, h, hu⟩
  | cons o1 rest ih =>
    intro idx d urls h u hu
    rw [List.foldl_cons] at h
    rcases ih _ d urls h u hu with ⟨urls0, h0, hu0⟩ | ⟨o, ho, hd, hurl⟩
    · rcases he : effectiveDate imgDate vidDate o1 with _ | d1
      · rw [buildStep, he] at h0
        exact Or.inl ⟨urls0, h0, hu0⟩
      · rw [buildStep, he] at h0
        rcases indexInsert_from idx d1 (urlOf bucket region o1.key) d urls0 h0 u hu0 with
          hin | ⟨hdd, huu⟩
        · exact Or.inl hin
        · exact Or.inr ⟨o1, List.mem_cons_self o1 rest, hdd ▸ he, huu⟩
    · exact Or.inr ⟨o, List.mem_cons_of_mem _ ho, hd, hurl⟩

/-- C4: index builder postcondition.  (1) Every listed object that is
web-displayable and whose capture date resolved to a (truthy) date has
its URL in the built index under that date; (2) every URL in the built
index was contributed by such an object — objects with unrecognized /
non-web-displayable extensions, and objects with no resolvable date,
never contribute an entry. -/
theorem buildIndex_spec (imgDate vidDate : String → Option String)
    (bucket region : String) (listing : List S3Object) :
    (∀ o ∈ listing, isWebMedia o.key = true →
      ∀ d, effectiveDate imgDate vidDate o = some d →
        ∃ urls, (d, urls) ∈ buildDateMediaIndex imgDate vidDate bucket region listing ∧
          urlOf bucket region o.key ∈ urls) ∧
    (∀ d urls, (d, urls) ∈ buildDateMediaIndex imgDate vidDate bucket region listing →
      ∀ url ∈ urls, ∃ o, o ∈ listing ∧ isWebMedia o.key = true ∧
        effectiveDate imgDate vidDate o = some d ∧ url = urlOf bucket region o.key) := by
  constructor
  · intro o hmem hweb d hdate
    exact buildFold_adds imgDate vidDate bucket region _ [] o d
      (List.mem_filter.mpr ⟨hmem, hweb⟩) hdate
  · intro d urls hmem url hu
    rcases buildFold_from imgDate vidDate bucket region _ [] d urls hmem url hu with
      ⟨urls0, h0, _⟩ | ⟨o, ho, hd, hurl⟩
    · exact absurd h0 (List.not_mem_nil _)
    · have := List.mem_filter.mp ho
      exact ⟨o, this.1, this.2, hd, hurl⟩

/-- Witness for C4 at a concrete listing: a dated JPEG contributes its
URL; the built index on that listing attributes it back. -/
theorem buildIndex_spec_witness :
    ∃ urls, ("2026-02-14", urls) ∈
      buildDateMediaIndex (fun _ => some "2026-02-14") (fun _ => none) "b" "r"
        [⟨"processed/a.jpg", none⟩] ∧
      urlOf "b" "r" "processed/a.jpg" ∈ urls :=
  (buildIndex_spec (fun _ => some "2026-02-14") (fun _ => none) "b" "r"
      [⟨"processed/a.jpg", none⟩]).1
    ⟨"processed/a.jpg", none⟩ (List.mem_cons_self _ _) (by decide)
    "2026-02-14" (by decide)

/-! ## Index pruning (src/scripts/prune-date-media-index.ts)

`extractKeyFromUrl` (URL parsing + `decodeURIComponent`) and
`objectExists` (a `HeadObject` round-trip) are external: they enter the
model as oracles `extractKey : String → Option String` and
`exObj : String → Bool`. -/

/-- The keep decision of the prune loop for one URL: a URL is kept iff
its key can be re-derived and the backing object exists; a malformed URL
(no key) is removed. -/
def urlObjectExists (extractKey : String → Option String) (exObj : String → Bool)
    (url : String) : Bool :=
  match extractKey url with
  | some k => exObj k
  | none => false

/-- The `cleaned` map built by the prune loop: per date, the URLs that
pass the keep test, the date dropped entirely when none survive.  Entry
order is the iteration order of the input (JS object insertion order). -/
def pruneIndex (keep : String → Bool) (idx : List (String × List String)) :
    List (String × List String) :=
  (idx.map fun e => (e.1, e.2.filter keep)).filter fun e => !e.2.isEmpty

/-- The `removed` counter after the loop. -/
def pruneRemoved (keep : String → Bool) (idx : List (String × List String)) : Nat :=
  (idx.map fun e => e.2.length - (e.2.filter keep).length).sum

/-- `if (removed === 0) return` — outside dry-run, the cleaned index is
re-uploaded exactly when the counter is non-zero. -/
def pruneReuploads (keep : String → Bool) (idx : List (String × List String)) : Bool :=
  pruneRemoved keep idx != 0

theorem nodup_key_unique {idx : List (String × List String)}
    (hnodup : (idx.map Prod.fst).Nodup) {d : String} {a b : List String}
    (ha : (d, a) ∈ idx) (hb : (d, b) ∈ idx) : a = b := by
  induction idx with
  | nil => exact absurd ha (List.not_mem_nil _)
  | cons e rest ih =>
    rw [List.map_cons, List.nodup_cons] at hnodup
    rcases List.mem_cons.mp ha with rfl | ha' <;>
      rcases List.mem_cons.mp hb with hb' | hb'
    · exact (congrArg Prod.snd hb'.symm)
    · exact absurd (List.mem_map_of_mem Prod.fst hb') (by simpa using hnodup.1)
    · rcases hb'
      exact absurd (List.mem_map_of_mem Prod.fst ha') (by simpa using hnodup.1)
    · exact ih hnodup.2 ha' hb'

theorem filter_length_eq_iff {p : String → Bool} {l : List String} :
    (l.filter p).length = l.length ↔ ∀ u ∈ l, p u = true := by
  constructor
  · intro h
    exact List.filter_eq_self.mp ((List.filter_sublist l).eq_of_length h)
  · intro h
    rw [List.filter_eq_self.mpr h]

/-- C5: pruning a date→URLs index against the existence oracle (1) only
produces entries that come from an input entry by removing exactly the
URLs whose backing object does not exist, the surviving URLs byte-
identical and in order; (2) every input entry with at least one
surviving URL appears, (3) entries with nothing to remove are unchanged;
(4) a date whose URLs all fail the check is dropped entirely; and (5)
the index object is re-uploaded iff at least one URL was removed. -/
theorem pruneIndex_spec (extractKey : String → Option String) (exObj : String → Bool)
    (idx : List (String × List String))
    (hnodup : (idx.map Prod.fst).Nodup) :
    (∀ d urls', (d, urls') ∈ pruneIndex (urlObjectExists extractKey exObj) idx →
      ∃ urls, (d, urls) ∈ idx ∧ urls' = urls.filter (urlObjectExists extractKey exObj) ∧
        urls' ≠ [] ∧
        ∀ u, u ∈ urls' ↔ u ∈ urls ∧ urlObjectExists extractKey exObj u = true) ∧
    (∀ d urls, (d, urls) ∈ idx → urls.filter (urlObjectExists extractKey exObj) ≠ [] →
      (d, urls.filter (urlObjectExists extractKey exObj)) ∈
        pruneIndex (urlObjectExists extractKey exObj) idx) ∧
    (∀ d urls, (d, urls) ∈ idx → urls ≠ [] →
      (∀ u ∈ urls, urlObjectExists extractKey exObj u = true) →
      (d, urls) ∈ pruneIndex (urlObjectExists extractKey exObj) idx) ∧
    (∀ d urls, (d, urls) ∈ idx → urls.filter (urlObjectExists extractKey exObj) = [] →
      ∀ urls', (d, urls') ∉ pruneIndex (urlObjectExists extractKey exObj) idx) ∧
    (pruneReuploads (urlObjectExists extractKey exObj) idx = false ↔
      ∀ d urls, (d, urls) ∈ idx → ∀ u ∈ urls, urlObjectExists extractKey exObj u = true) := by
  set keep := urlObjectExists extractKey exObj with hkeep
  have part1 : ∀ d urls', (d, urls') ∈ pruneIndex keep idx →
      ∃ urls, (d, urls) ∈ idx ∧ urls' = urls.filter keep ∧ urls' ≠ [] ∧
        ∀ u, u ∈ urls' ↔ u ∈ urls ∧ keep u = true := by
    intro d urls' hmem
    rw [pruneIndex] at hmem
    obtain ⟨hmap, hne⟩ := List.mem_filter.mp hmem
    obtain ⟨e, he, heq⟩ := List.mem_map.mp hmap
    have h1 : e.1 = d := congrArg Prod.fst heq
    have h2 : e.2.filter keep = urls' := congrArg Prod.snd heq
    refine ⟨e.2, by rw [← h1]; exact he, h2.symm, ?_, ?_⟩
    · intro hc
      rw [hc] at hne
      simp at hne
    · intro u
      rw [← h2]
      simp [List.mem_filter]
  refine ⟨part1, ?_, ?_, ?_, ?_⟩
  · intro d urls hmem hne
    rw [pruneIndex]
    refine List.mem_filter.mpr ⟨?_, by simpa using hne⟩
    exact List.mem_map_of_mem (fun e => (e.1, e.2.filter keep)) hmem
  · intro d urls hmem hne hall
    have hfe : urls.filter keep = urls := List.filter_eq_self.mpr hall
    rw [pruneIndex]
    have hmm : (d, urls) ∈ idx.map (fun e => (e.1, e.2.filter keep)) := by
      have := List.mem_map_of_mem (fun e => (e.1, e.2.filter keep)) hmem
      simpa [hfe] using this
    exact List.mem_filter.mpr ⟨hmm, by simpa using hne⟩
  · intro d urls hmem hempty urls' hmem'
    obtain ⟨urls2, hmem2, heq2, hne2, _⟩ := part1 d urls' hmem'
    have : urls2 = urls := nodup_key_unique hnodup hmem2 hmem
    rw [this] at heq2
    rw [heq2, hempty] at hne2
    exact hne2 rfl
  · rw [pruneReuploads]
    constructor
    · intro h d urls hmem u hu
      have hz : pruneRemoved keep idx = 0 := by
        by_contra hc
        simp [hc] at h
      rw [pruneRemoved] at hz
      have hall := List.sum_eq_zero_iff.mp hz
      have := hall (urls.length - (urls.filter keep).length)
        (List.mem_map_of_mem _ hmem)
      have hlen : (urls.filter keep).length = urls.length := by
        have hle := urls.length_filter_le keep
        omega
      exact filter_length_eq_iff.mp hlen u hu
    · intro h
      have hz : pruneRemoved keep idx = 0 := by
        rw [pruneRemoved]
        refine List.sum_eq_zero_iff.mpr ?_
        intro x hx
        obtain ⟨e, he, heq⟩ := List.mem_map.mp hx
        have : (e.2.filter keep).length = e.2.length :=
          filter_length_eq_iff.mpr (fun u hu => h e.1 e.2 he u hu)
        omega
      simp [hz]

/-- Witness for C5: a two-date index where one URL's object is missing;
that URL's date survives with the other URL, and re-upload happens. -/
theorem pruneIndex_spec_witness :
    ("2026-02-14", ["https://b/x.jpg"]) ∈
      pruneIndex (urlObjectExists (fun u => some u) (fun k => k == "https://b/x.jpg"))
        [("2026-02-14", ["https://b/x.jpg", "https://b/y.jpg"])] :=
  (pruneIndex_spec (fun u => some u) (fun k => k == "https://b/x.jpg")
      [("2026-02-14", ["https://b/x.jpg", "https://b/y.jpg"])] (by decide)).2.1
    "2026-02-14" ["https://b/x.jpg", "https://b/y.jpg"] (by decide) (by decide)

/-! ## Date-media lookup endpoint (src/api/date-media.ts)

The S3 `GetObject` fetch and `JSON.parse` are external; they are
modelled by a fetch outcome `Option (Option String)` (`none` = the
request threw, e.g. missing object; `some none` = no `Body`; `some
(some text)` = body text) and a parse oracle
`parse : String → Option Json` (`none` = `JSON.parse` threw). -/

/-- JSON values as produced by `JSON.parse`. -/
inductive Json where
  | null
  | bool (b : Bool)
  | num (n : Int)
  | str (s : String)
  | arr (elems : List Json)
  | obj (fields : List (String × Json))

/-- The `!parsed || typeof parsed !== "object"` acceptance test: JSON
values passing it are exactly non-null objects and arrays. -/
def isJsObjectLike : Json → Bool
  | .arr _ => true
  | .obj _ => true
  | _ => false

/-- A canonical array-index string (`"0"`, `"17"`, …) as used by JS
property lookup on arrays. -/
def canonicalIndex (k : String) : Option Nat :=
  if !k.data.isEmpty && k.data.all isDecDigit && (k == "0" || k.data.head? != some '0')
  then some (decValue k.data) else none

/-- JS property lookup `v[key]` on a parsed JSON value: object fields
(last duplicate wins, as in `JSON.parse`), array numeric indices. -/
def jsLookup (v : Json) (key : String) : Option Json :=
  match v with
  | .obj fields =>
    fields.foldl (fun acc p => if p.1 = key then some p.2 else acc) none
  | .arr elems =>
    match canonicalIndex key with
    | some i => elems.get? i
    | none => none
  | _ => none

/-- `loadDateMediaIndex()` from src/api/date-media.ts: `none` models a
thrown error (missing object, empty body, parse failure, or a parsed
value that is not a truthy object). -/
def loadDateMediaIndex (parse : String → Option Json)
    (fetch : Option (Option String)) : Option Json :=
  match fetch with
  | none => none
  | some none => none
  | some (some text) =>
    match parse text with
    | none => none
    | some v => if isJsObjectLike v then some v else none

/-- A handler response: either a JSON error with a status, or the 200
payload `{date, urls}` (urls left as a JSON value because the source
casts the parsed index without validating the lists). -/
inductive ApiResponse where
  | err (status : Nat) (msg : String)
  | ok (status : Nat) (date : String) (urls : Json)

/-- `index[date] ?? []`. -/
def urlsForDate (v : Json) (date : String) : Json :=
  match jsLookup v date with
  | none => Json.arr []
  | some .null => Json.arr []
  | some u => u

/-- The date-media request handler (src/api/date-media.ts), with the
viewer guard abstracted to the boolean `authed`. -/
def dateMediaHandler (parse : String → Option Json) (fetch : Option (Option String))
    (method : String) (authed : Bool) (bucket : String) (date : Option String) :
    ApiResponse :=
  if method ≠ "GET" then .err 405 "Method not allowed"
  else if ¬ authed then .err 401 "Unauthorized"
  else if bucket = "" then .err 500 "S3_BUCKET_NAME not configured"
  else
    match date with
    | none => .err 400 "Missing required query param: date"
    | some d =>
      match loadDateMediaIndex parse fetch with
      | none => .err 500 "Failed to load media for date"
      | some v => .ok 200 d (urlsForDate v d)

/-- C6: for every requested date, (1) the index load fails (throwing into
the 500 branch) exactly when the fetch threw, the body was empty, the
body did not JSON-parse, or the parsed value is not an object; (2) in
each of those cases the handler answers 500, never a silent empty
result; (3) when the index loads but the date key is absent, the handler
answers 200 with an empty URL list. -/
theorem dateMedia_spec (parse : String → Option Json) (fetch : Option (Option String))
    (date : String) (bucket : String) (hb : bucket ≠ "") :
    (loadDateMediaIndex parse fetch = none ↔
      fetch = none ∨ fetch = some none ∨
      (∃ t, fetch = some (some t) ∧ parse t = none) ∨
      (∃ t v, fetch = some (some t) ∧ parse t = some v ∧ isJsObjectLike v = false)) ∧
    (loadDateMediaIndex parse fetch = none →
      dateMediaHandler parse fetch "GET" true bucket (some date) =
        .err 500 "Failed to load media for date") ∧
    (∀ v, loadDateMediaIndex parse fetch = some v → jsLookup v date = none →
      dateMediaHandler parse fetch "GET" true bucket (some date) =
        .ok 200 date (Json.arr [])) := by
  refine ⟨?_, ?_, ?_⟩
  · constructor
    · intro h
      rcases fetch with _ | bodyOpt
      · exact Or.inl rfl
      · rcases bodyOpt with _ | text
        · exact Or.inr (Or.inl rfl)
        · rcases hp : parse text with _ | v
          · exact Or.inr (Or.inr (Or.inl ⟨text, rfl, hp⟩))
          · refine Or.inr (Or.inr (Or.inr ⟨text, v, rfl, hp, ?_⟩))
            simp only [loadDateMediaIndex, hp] at h
            by_cases ho : isJsObjectLike v
            · rw [if_pos ho] at h; exact absurd h (by simp)
            · exact Bool.eq_false_iff.mpr ho
    · intro h
      rcases h with h | h | ⟨t, ht, hp⟩ | ⟨t, v, ht, hp, ho⟩
      · rw [h]; rfl
      · rw [h]; rfl
      · rw [ht]
        simp only [loadDateMediaIndex, hp]
      · rw [ht]
        simp only [loadDateMediaIndex, hp]
        simp [ho]
  · intro h
    simp [dateMediaHandler, hb, h]
  · intro v hload hlookup
    simp [dateMediaHandler, hb, hload, urlsForDate, hlookup]

/-- Witness for C6: a body that parses to `null` gives a 500; a loaded
object index without the requested date gives 200 with `[]`. -/
theorem dateMedia_spec_witness :
    dateMediaHandler (fun _ => some Json.null) (some (some "null")) "GET" true "b"
        (some "2026-02-14") = .err 500 "Failed to load media for date" ∧
    dateMediaHandler (fun _ => some (Json.obj [])) (some (some "\x7b\x7d")) "GET" true "b"
        (some "2026-02-14") = .ok 200 "2026-02-14" (Json.arr []) := by
  constructor
  · exact (dateMedia_spec (fun _ => some Json.null) (some (some "null")) "2026-02-14" "b"
      (by decide)).2.1 (by rfl)
  · exact (dateMedia_spec (fun _ => some (Json.obj [])) (some (some "\x7b\x7d")) "2026-02-14" "b"
      (by decide)).2.2 (Json.obj []) rfl rfl

/-! ## Bulk object deletion (src/unnamed/part_001, src/api/admin/photos/delete.ts)

The S3 `DeleteObjects` call is external; it is modelled by an oracle
`s3delete : List String → Option S3DeleteResult` (`none` = the call
threw).  With `Quiet: false`, S3's contract is that every requested key
appears in `Deleted` or in `Errors`; the theorem takes that contract as
a hypothesis on the oracle's answer. -/

/-- One entry of the S3 `Errors` array as the handler reads it
(`e.Key`, `e.Code`, `e.Message`, each possibly absent in the AWS type). -/
structure S3DeleteError where
  key : Option String
  code : Option String
  message : Option String
deriving DecidableEq, Repr

/-- The S3 `DeleteObjects` response as the handler reads it:
`Deleted[*].Key` (possibly absent) and `Errors`. -/
structure S3DeleteResult where
  deleted : List (Option String)
  errors : List S3DeleteError
deriving DecidableEq, Repr

/-- Bulk-delete handler response. -/
inductive DeleteResponse where
  | err (status : Nat) (msg : String)
  | ok (status : Nat) (deleted : List String) (errors : List S3DeleteError) (message : String)
deriving DecidableEq, Repr

/-- The bulk object-deletion handler (identical in src/unnamed/part_001
and src/api/admin/photos/delete.ts apart from the guard), with the admin
guard abstracted to `authed`.  `body` is `body?.keys` when it is an
array, else absent. -/
def bulkDeleteHandler (s3delete : List String → Option S3DeleteResult)
    (method : String) (authed : Bool) (bucket : String)
    (body : Option (List String)) : DeleteResponse :=
  if method ≠ "POST" ∧ method ≠ "DELETE" then .err 405 "Method not allowed"
  else if ¬ authed then .err 401 "Unauthorized"
  else if bucket = "" then .err 500 "S3_BUCKET_NAME not configured"
  else
    let keys := match body with
      | some ks => ks
      | none => []
    if keys.isEmpty then .err 400 "Request body must include keys: string[]"
    else
      match s3delete (keys.take 1000) with
      | none => .err 500 "Failed to delete objects from S3"
      | some r =>
        let deleted := (r.deleted.filterMap id).filter (fun k => k ≠ "")
        let message := if r.errors.isEmpty
          then "Deleted " ++ Nat.repr deleted.length ++ " file(s)."
          else "Deleted " ++ Nat.repr deleted.length ++ ", " ++
            Nat.repr r.errors.length ++ " error(s)."
        .ok 200 deleted r.errors message

/-- C7: the bulk-deletion handler sends at most 1000 keys per call, and
given S3's non-quiet contract on the sent batch, every sent key is
reported back either in the deleted list or in the per-key error list
with an error code; when at most 1000 keys were submitted this covers
every submitted key. -/
theorem bulkDelete_reports_all (s3delete : List String → Option S3DeleteResult)
    (method : String) (bucket : String) (keys : List String) (r : S3DeleteResult)
    (hm : method = "POST" ∨ method = "DELETE") (hb : bucket ≠ "") (hk : keys ≠ [])
    (hne : ∀ k ∈ keys, k ≠ "")
    (hr : s3delete (keys.take 1000) = some r)
    (hcontract : ∀ k ∈ keys.take 1000,
      some k ∈ r.deleted ∨ ∃ e ∈ r.errors, e.key = some k ∧ e.code ≠ none) :
    ∃ dels msg,
      bulkDeleteHandler s3delete method true bucket (some keys) =
        .ok 200 dels r.errors msg ∧
      (∀ k ∈ keys.take 1000, k ∈ dels ∨ ∃ e ∈ r.errors, e.key = some k ∧ e.code ≠ none) ∧
      (keys.length ≤ 1000 →
        ∀ k ∈ keys, k ∈ dels ∨ ∃ e ∈ r.errors, e.key = some k ∧ e.code ≠ none) := by
  have hmethod : ¬ (method ≠ "POST" ∧ method ≠ "DELETE") := by
    rcases hm with h | h <;> simp [h]
  have hkeys : keys.isEmpty = false := by
    rcases keys with _ | ⟨k, ks⟩
    · exact absurd rfl hk
    · rfl
  refine ⟨(r.deleted.filterMap id).filter (fun k => k ≠ ""),
    (if r.errors.isEmpty
      then "Deleted " ++
        Nat.repr ((r.deleted.filterMap id).filter (fun k => k ≠ "")).length ++ " file(s)."
      else "Deleted " ++
        Nat.repr ((r.deleted.filterMap id).filter (fun k => k ≠ "")).length ++ ", " ++
        Nat.repr r.errors.length ++ " error(s)."), ?_, ?_, ?_⟩
  · rw [bulkDeleteHandler, if_neg hmethod]
    simp only [hkeys, hr, hb]
    simp
  · intro k hkmem
    rcases hcontract k hkmem with hdel | herr
    · refine Or.inl (List.mem_filter.mpr ⟨?_, ?_⟩)
      · exact List.mem_filterMap.mpr ⟨some k, hdel, rfl⟩
      · have : k ≠ "" := hne k ((List.take_sublist 1000 keys).subset hkmem)
        simpa using this
    · exact Or.inr herr
  · intro hlen k hkmem
    have htake : keys.take 1000 = keys := List.take_of_length_le hlen
    rcases hcontract k (by rw [htake]; exact hkmem) with hdel | herr
    · refine Or.inl (List.mem_filter.mpr ⟨?_, ?_⟩)
      · exact List.mem_filterMap.mpr ⟨some k, hdel, rfl⟩
      · have : k ≠ "" := hne k hkmem
        simpa using this
    · exact Or.inr herr

/-- Witness for C7: two keys, one deleted, one failing with a code. -/
theorem bulkDelete_reports_all_witness :
    ∃ dels msg,
      bulkDeleteHandler
          (fun _ => some ⟨[some "a.jpg"], [⟨some "b.jpg", some "AccessDenied", none⟩]⟩)
          "POST" true "bucket" (some ["a.jpg", "b.jpg"]) =
        .ok 200 dels [⟨some "b.jpg", some "AccessDenied", none⟩] msg ∧
      (∀ k ∈ (["a.jpg", "b.jpg"] : List String).take 1000,
        k ∈ dels ∨ ∃ e ∈ [(⟨some "b.jpg", some "AccessDenied", none⟩ : S3DeleteError)],
          e.key = some k ∧ e.code ≠ none) ∧
      ((["a.jpg", "b.jpg"] : List String).length ≤ 1000 →
        ∀ k ∈ (["a.jpg", "b.jpg"] : List String),
          k ∈ dels ∨ ∃ e ∈ [(⟨some "b.jpg", some "AccessDenied", none⟩ : S3DeleteError)],
            e.key = some k ∧ e.code ≠ none) :=
  bulkDelete_reports_all
    (fun _ => some ⟨[some "a.jpg"], [⟨some "b.jpg", some "AccessDenied", none⟩]⟩)
    "POST" "bucket" ["a.jpg", "b.jpg"] ⟨[some "a.jpg"], [⟨some "b.jpg", some "AccessDenied", none⟩]⟩
    (Or.inl rfl) (by decide) (by decide) (by decide) rfl (by decide)

/-! ## Calendar entry upsert (src/api/memories.ts PUT + AdminPage save)

The admin page (src/unnamed/part_007) is the writer of calendar
entries: `handleSave` derives `type` from the selected media count via
`deriveType` and PUTs `{date, type, text: messageText.trim(), media}`;
the server handler stores the body fields unchanged. -/

/-- `MemoryType` from src/types. -/
inductive MemoryType where
  | text
  | photo
  | gallery
deriving DecidableEq, Repr

/-- The string each `MemoryType` is on the wire. -/
def memoryTypeStr : MemoryType → String
  | .text => "text"
  | .photo => "photo"
  | .gallery => "gallery"

/-- `deriveType(mediaCount)` from src/unnamed/part_007. -/
def deriveType (mediaCount : Nat) : MemoryType :=
  if mediaCount = 0 then .text
  else if mediaCount = 1 then .photo
  else .gallery

/-- The PUT request body `{date, type, text, media}`; every field may be
absent. -/
structure PutBody where
  date : Option String
  type : Option String
  text : Option String
  media : Option (List String)
deriving DecidableEq, Repr

/-- The DynamoDB item written by the PUT handler. -/
structure MemoryItem where
  date_id : String
  type : String
  text : String
  media : Option (List String)
deriving DecidableEq, Repr

/-- PUT handler outcome: error response, or 200 with the stored item. -/
inductive PutResult where
  | err (status : Nat) (msg : String)
  | ok (status : Nat) (stored : MemoryItem)
deriving DecidableEq, Repr

/-- The PUT branch of src/api/memories.ts (admin guard abstracted to
`authed`; the DynamoDB put is assumed to succeed — its failure branch is
a 500 and stores nothing).  `!date || !type` treats absent and empty as
missing; `text || \"\"` coalesces a falsy caption; `media` is stored only
when it is a non-empty array. -/
def memoriesPut (authed : Bool) (body : Option PutBody) : PutResult :=
  if ¬ authed then .err 401 "Unauthorized"
  else
    let b := body.getD ⟨none, none, none, none⟩
    if b.date = none ∨ b.date = some "" ∨ b.type = none ∨ b.type = some "" then
      .err 400 "Missing required fields: date, type"
    else
      .ok 200
        { date_id := b.date.getD ""
          type := b.type.getD ""
          text := b.text.getD ""
          media := match b.media with
            | none => none
            | some m => if m.length > 0 then some m else none }

/-- The body `handleSave` sends (src/unnamed/part_007). -/
def adminSaveBody (selectedDate messageText : String) (selectedUrls : List String) :
    PutBody :=
  { date := some selectedDate
    type := some (memoryTypeStr (deriveType selectedUrls.length))
    text := some (jsTrim messageText)
    media := some selectedUrls }

/-- `handleSave` end to end: the early return when both caption and
selection are empty, then the PUT against the server handler. -/
def adminSaveFlow (authed : Bool) (selectedDate messageText : String)
    (selectedUrls : List String) : Option PutResult :=
  if jsTrim messageText = "" ∧ selectedUrls.isEmpty then none
  else some (memoriesPut authed (some (adminSaveBody selectedDate messageText selectedUrls)))

theorem memoryTypeStr_ne_empty (t : MemoryType) : memoryTypeStr t ≠ "" := by
  cases t <;> decide

/-- C9: saving a calendar entry with a caption and two media URLs stores
it with kind `gallery`; in general the stored kind is the one derived
from the media count, and `deriveType` is exactly the
0→text / 1→photo / >1→gallery rule. -/
theorem put_two_media_gallery :
    (∀ selectedDate caption u1 u2, selectedDate ≠ "" →
      adminSaveFlow true selectedDate caption [u1, u2] =
        some (.ok 200 ⟨selectedDate, "gallery", jsTrim caption, some [u1, u2]⟩)) ∧
    (∀ selectedDate caption urls, selectedDate ≠ "" →
      ¬ (jsTrim caption = "" ∧ urls.isEmpty) →
      adminSaveFlow true selectedDate caption urls =
        some (.ok 200 ⟨selectedDate, memoryTypeStr (deriveType urls.length),
          jsTrim caption, if urls.length > 0 then some urls else none⟩)) ∧
    (deriveType 0 = .text ∧ deriveType 1 = .photo ∧
      ∀ n, 2 ≤ n → deriveType n = .gallery) := by
  have general : ∀ selectedDate caption urls, selectedDate ≠ "" →
      ¬ (jsTrim caption = "" ∧ urls.isEmpty) →
      adminSaveFlow true selectedDate caption urls =
        some (.ok 200 ⟨selectedDate, memoryTypeStr (deriveType urls.length),
          jsTrim caption, if urls.length > 0 then some urls else none⟩) := by
    intro selectedDate caption urls hdate hguard
    rw [adminSaveFlow, if_neg hguard, memoriesPut, adminSaveBody]
    have hcond : ¬ ((some selectedDate : Option String) = none ∨
        (some selectedDate : Option String) = some "" ∨
        (some (memoryTypeStr (deriveType urls.length)) : Option String) = none ∨
        (some (memoryTypeStr (deriveType urls.length)) : Option String) = some "") := by
      simp [hdate, memoryTypeStr_ne_empty (deriveType urls.length)]
    simp only [Option.getD_some, not_true, if_neg hcond]
    simp
  refine ⟨?_, general, by decide, by decide, ?_⟩
  · intro selectedDate caption u1 u2 hdate
    have := general selectedDate caption [u1, u2] hdate (by simp)
    simpa [deriveType, memoryTypeStr] using this
  · intro n hn
    rw [deriveType, if_neg (by omega), if_neg (by omega)]

/-- Witness for C9: concrete save with caption and two URLs is stored
with kind `gallery`. -/
theorem put_two_media_gallery_witness :
    adminSaveFlow true "2026-02-14" "Happy Valentines" ["u1", "u2"] =
      some (.ok 200 ⟨"2026-02-14", "gallery", "Happy Valentines", some ["u1", "u2"]⟩) :=
  put_two_media_gallery.1 "2026-02-14" "Happy Valentines" "u1" "u2" (by decide)

end ValentineSite
